import Mathlib

/-!
Verification development for the LEOHUNT coordinate-guessing bot
(`src/bot.py`).  The Python source is shallowly embedded:

* text is `List Char` / `String`; Python floats are modelled as exact
  rationals (`ℚ`) in the parsing/ledger layer and as real numbers (`ℝ`)
  in the trigonometric distance layer;
* the two DMS regexes (`DMS_LAT_RE`, `DMS_LON_RE`) together with
  Python's `re.search` are embedded as the deterministic function
  `searchTok`: `re.search` tries every start position left to right and
  at a given start the greedy quantifiers of this particular pattern are
  forced (each `\d+`/`\D+` run is followed by a character of the other
  class), except for the final `\D*([NS])` where greedy backtracking
  selects the *last* hemisphere letter inside the maximal non-digit run;
* the sqlite tables are embedded as a record `DB` (the `state` key-value
  table becomes two `Option String` fields, the `submissions` table an
  append-only list);
* the discord handlers are embedded by their state/result semantics
  (`submit` for `SubmitModal.on_submit`, `leaderboard` for the
  `/leaderboard` command), with the clock passed explicitly.

The character classes `\d`/`\D`, whitespace and case folding are
modelled on the ASCII alphabet (`Char.isDigit`, `Char.toUpper`).
-/

/-! ## Character classes -/

/-- Python `\d` (ASCII model). -/
def pyDigit (c : Char) : Bool := c.isDigit

/-- Python `str.split` / `str.strip` whitespace (ASCII model). -/
def pySpace (c : Char) : Bool :=
  c = ' ' ∨ c = '\t' ∨ c = '\n' ∨ c = '\r' ∨ c = '\x0b' ∨ c = '\x0c'

/-- The character class `[NS]` of `DMS_LAT_RE` under `re.IGNORECASE`. -/
def latHemi (c : Char) : Bool := c = 'N' ∨ c = 'n' ∨ c = 'S' ∨ c = 's'

/-- The character class `[EW]` of `DMS_LON_RE` under `re.IGNORECASE`. -/
def lonHemi (c : Char) : Bool := c = 'E' ∨ c = 'e' ∨ c = 'W' ∨ c = 'w'

/-! ## The DMS regex, embedded -/

/-- The captured groups of `(\d+)\D+(\d+)\D+(\d+(?:\.\d+)?)\D*([NS])`:
group 1 (`d1`, degrees), group 2 (`d2`, minutes), the integer digits of
group 3 (`d3`) together with its optional fractional digits (`frac`),
and group 4 (`hemi`). -/
structure Groups where
  d1 : List Char
  d2 : List Char
  d3 : List Char
  frac : Option (List Char)
  hemi : Char
  deriving DecidableEq, Repr

/-- The tail `\D*([NS])` of the pattern: greedy `\D*` with backtracking
matches the hemisphere at the last hemisphere letter inside the maximal
non-digit run. -/
def finishHemi (hemi : Char → Bool) (d1 d2 d3 : List Char)
    (frac : Option (List Char)) (r : List Char) : Option Groups :=
  match ((r.takeWhile (fun c => !pyDigit c)).filter hemi).getLast? with
  | some h => some ⟨d1, d2, d3, frac, h⟩
  | none => none

/-- A `\d+`-style step: the maximal non-empty run of `p`-characters and
the rest, or `none` when the run is empty. -/
def reqRun (p : Char → Bool) (s : List Char) : Option (List Char × List Char) :=
  if (s.takeWhile p).isEmpty then none else some (s.takeWhile p, s.dropWhile p)

/-- The optional `(?:\.\d+)?` after group 3's integer digits, greedy:
the fractional digits (if a dot followed by at least one digit is
present) and the rest. -/
def fracRun (r5 : List Char) : Option (List Char) × List Char :=
  match r5 with
  | '.' :: t =>
    if (t.takeWhile pyDigit).isEmpty then (none, r5)
    else (some (t.takeWhile pyDigit), t.dropWhile pyDigit)
  | _ => (none, r5)

/-- Attempt the pattern at the current position.  Every `\d+`/`\D+` run
is forced maximal by the following character class, so the greedy match
is deterministic. -/
def matchAt (hemi : Char → Bool) (s : List Char) : Option Groups := do
  let (d1, r1) ← reqRun pyDigit s
  let (_s1, r2) ← reqRun (fun c => !pyDigit c) r1
  let (d2, r3) ← reqRun pyDigit r2
  let (_s2, r4) ← reqRun (fun c => !pyDigit c) r3
  let (d3, r5) ← reqRun pyDigit r4
  let (frac, r6) := fracRun r5
  finishHemi hemi d1 d2 d3 frac r6

/-- Python `re.search`: try every start position, leftmost first. -/
def searchTok (hemi : Char → Bool) : List Char → Option Groups
  | [] => none
  | c :: t =>
    match matchAt hemi (c :: t) with
    | some g => some g
    | none => searchTok hemi t

/-! ## Tokenisation (`str.strip`, `str.replace`, `str.split`) -/

/-- Helper for `pySplit`: accumulate the current word (reversed). -/
def pySplitAux : List Char → List Char → List (List Char)
  | [], acc => if acc = [] then [] else [acc.reverse]
  | c :: t, acc =>
    if pySpace c then
      if acc = [] then pySplitAux t [] else acc.reverse :: pySplitAux t []
    else pySplitAux t (c :: acc)

/-- Python `str.split()` (no argument): split on whitespace runs,
dropping empty tokens. -/
def pySplit (l : List Char) : List (List Char) := pySplitAux l []

/-- Python `str.strip()`. -/
def pyStrip (l : List Char) : List Char :=
  ((l.dropWhile pySpace).reverse.dropWhile pySpace).reverse

/-- `text.strip().replace(",", " ").split()` of `parse_dms_pair`. -/
def dmsTokens (text : List Char) : List (List Char) :=
  pySplit ((pyStrip text).map (fun c => if c = ',' then ' ' else c))

/-! ## Numeric conversion of the captured groups -/

/-- Python `int` on a non-empty decimal digit string. -/
def digitsToInt (l : List Char) : Int :=
  (l.foldl (fun n c => 10 * n + (c.toNat - '0'.toNat)) 0 : Nat)

/-- Python `float` on group 3 (`\d+(?:\.\d+)?`), exactly as a rational. -/
def numVal (d : List Char) (frac : Option (List Char)) : ℚ :=
  (digitsToInt d : ℚ) +
    (match frac with
     | none => 0
     | some f => (digitsToInt f : ℚ) / 10 ^ f.length)

/-- `dms_to_decimal` (src/bot.py lines 27-31): decimal degrees from DMS
components, negated for the S/W hemisphere (`hemi.upper()`). -/
def dms_to_decimal (deg mins : Int) (seconds : ℚ) (hemi : Char) : ℚ :=
  let dec : ℚ := |(deg : ℚ)| + (mins : ℚ) / 60 + seconds / 3600
  if hemi.toUpper = 'S' ∨ hemi.toUpper = 'W' then -dec else dec

/-- The decimal value of a full regex match. -/
def groupVal (g : Groups) : ℚ :=
  dms_to_decimal (digitsToInt g.d1) (digitsToInt g.d2) (numVal g.d3 g.frac) g.hemi

/-- `parse_dms_pair` (src/bot.py lines 37-51).  `none` models the raised
`ValueError` (the spec's `FormatError`). -/
def parse_dms_pair (text : List Char) : Option (ℚ × ℚ) :=
  match dmsTokens text with
  | p0 :: p1 :: _ =>
    match searchTok latHemi p0, searchTok lonHemi p1 with
    | some g1, some g2 => some (groupVal g1, groupVal g2)
    | _, _ => none
  | _ => none

example : (parse_dms_pair "18x24x56N 13x1x56E".data).isSome = true := by decide
example : (parse_dms_pair "18x24x56S, 13x1x56W".data).isSome = true := by decide
example : parse_dms_pair "garbage".data = none := by decide
example : parse_dms_pair "18x24x56N".data = none := by decide
example : searchTok latHemi "99x9x9N".data =
    some ⟨"99".data, "9".data, "9".data, none, 'N'⟩ := by decide
example : searchTok latHemi "18°24'56\"N".data =
    some ⟨"18".data, "24".data, "56".data, none, 'N'⟩ := by decide
example : searchTok lonHemi "13°01'56.5\"e".data =
    some ⟨"13".data, "01".data, "56".data, some "5".data, 'e'⟩ := by decide

/-! ## The sqlite state, embedded -/

/-- One row of the `submissions` table (src/bot.py lines 80-89);
`lat`/`lon` are the stored floats, modelled as exact rationals. -/
structure Submission where
  week : String
  user : Int
  lat : ℚ
  lon : ℚ
  ts : Int
  deriving DecidableEq, Repr

/-- The whole database: the two keys of the `state` table that the bot
uses (`week_id`, `target_dms`), plus the `submissions` table. -/
structure DB where
  week_id : Option String
  target_dms : Option String
  subs : List Submission
  deriving DecidableEq, Repr

/-- The freshly initialised database (`init_db`). -/
def initDB : DB := ⟨none, none, []⟩

/-- Python `s.strip()` on a `String`. -/
def pyStripS (s : String) : String := ⟨pyStrip s.data⟩

/-- `current_week_id` (src/bot.py lines 108-110): the stored week id,
with both a missing key and an empty stored value falling back to the
`"week-1"` sentinel (`get_state(...) or "week-1"`). -/
def current_week_id (db : DB) : String :=
  match db.week_id with
  | none => "week-1"
  | some w => if w = "" then "week-1" else w

/-- `set_week_id` (src/bot.py lines 112-113). -/
def set_week_id (db : DB) (w : String) : DB := { db with week_id := some w }

/-- Result of `set_target_dms`: `formatError` models the `ValueError`
raised by `parse_dms_pair` propagating out before anything is stored. -/
inductive SetTargetRes where
  | ok
  | formatError
  deriving DecidableEq, Repr

/-- `set_target_dms` (src/bot.py lines 115-118): validate by parsing,
then store the raw DMS text; on a parse failure nothing is written. -/
def set_target_dms (db : DB) (dms : String) : SetTargetRes × DB :=
  match parse_dms_pair dms.data with
  | none => (.formatError, db)
  | some _ => (.ok, { db with target_dms := some dms })

/-- `get_target` (src/bot.py lines 120-124): `None` for a missing or
empty (`if not dms`) stored value, otherwise the parse of the stored
text.  (A stored non-empty unparsable value would raise in Python; it is
unreachable, since `set_target_dms` validates and `start_week` stores
`""`, and is modelled as `none`.) -/
def get_target (db : DB) : Option (ℚ × ℚ) :=
  match db.target_dms with
  | none => none
  | some dms => if dms = "" then none else parse_dms_pair dms.data

/-- `count_attempts` (src/bot.py lines 126-132): the number of stored
submissions of this user in this week. -/
def count_attempts (db : DB) (week : String) (user : Int) : Nat :=
  (db.subs.filter (fun s => s.week = week ∧ s.user = user)).length

/-- `add_submission` (src/bot.py lines 134-138): append-only insert. -/
def add_submission (db : DB) (week : String) (user : Int)
    (lat lon : ℚ) (ts : Int) : DB :=
  { db with subs := db.subs ++ [⟨week, user, lat, lon, ts⟩] }

/-- `/start_week` (src/bot.py lines 258-267): store the stripped week id
and clear the target by storing the empty string. -/
def start_week (db : DB) (week : String) : DB :=
  { set_week_id db (pyStripS week) with target_dms := some "" }

/-- The four outcomes of `SubmitModal.on_submit`, in the order the
handler tests for them. -/
inductive SubmitRes where
  | noTarget
  | quotaExceeded
  | formatError
  | accepted (attemptsUsed : Nat)
  deriving DecidableEq, Repr

/-- `SubmitModal.on_submit` (src/bot.py lines 184-225): look up the
week and target, refuse without a target, then refuse at 10 used
attempts, then parse, then persist with the current clock `now`. -/
def submit (db : DB) (user : Int) (text : String) (now : Int) :
    SubmitRes × DB :=
  let week := current_week_id db
  match get_target db with
  | none => (.noTarget, db)
  | some _ =>
    let used := count_attempts db week user
    if 10 ≤ used then (.quotaExceeded, db)
    else
      match parse_dms_pair text.data with
      | none => (.formatError, db)
      | some (lat, lon) => (.accepted (used + 1), add_submission db week user lat lon now)

/-- The databases reachable from a fresh database through the bot's
state-changing operations. -/
inductive Reachable : DB → Prop where
  | init : Reachable initDB
  | startWeek (db w) : Reachable db → Reachable (start_week db w)
  | setTarget (db s) : Reachable db → Reachable (set_target_dms db s).2
  | submits (db u text now) : Reachable db → Reachable (submit db u text now).2

example : (submit (start_week initDB "w2") 3 "18x24x56N 13x1x56E" 5).1 = .noTarget := by decide
example :
    (submit (set_target_dms initDB "18x24x56N 13x1x56E").2 3 "1x1x1N 1x1x1E" 5).1 =
      .accepted 1 := by decide
example :
    (submit (set_target_dms initDB "18x24x56N 13x1x56E").2 3 "nonsense" 5).1 =
      .formatError := by decide

/-! ## Great-circle distance (`haversine_m`), over ℝ -/

/-- Python `math.radians`. -/
noncomputable def radians (x : ℝ) : ℝ := x * Real.pi / 180

/-- Python `math.atan2 y x`. -/
noncomputable def atan2 (y x : ℝ) : ℝ :=
  if 0 < x then Real.arctan (y / x)
  else if x < 0 then
    (if 0 ≤ y then Real.arctan (y / x) + Real.pi else Real.arctan (y / x) - Real.pi)
  else if 0 < y then Real.pi / 2
  else if y < 0 then -(Real.pi / 2)
  else 0

/-- `haversine_m` (src/bot.py lines 53-61). -/
noncomputable def haversine_m (lat1 lon1 lat2 lon2 : ℝ) : ℝ :=
  let R : ℝ := 6371000
  let phi1 := radians lat1
  let phi2 := radians lat2
  let dphi := radians (lat2 - lat1)
  let dl := radians (lon2 - lon1)
  let a := Real.sin (dphi / 2) ^ 2 +
    Real.cos phi1 * Real.cos phi2 * Real.sin (dl / 2) ^ 2
  let c := 2 * atan2 (Real.sqrt a) (Real.sqrt (1 - a))
  R * c

/-- The haversine contract exactly as §4.2 of the spec words it: convert
the latitudes and deltas to radians, form
`a = sin²(Δφ/2) + cos φ1 · cos φ2 · sin²(Δλ/2)`, and return
`2·R·atan2(√a, √(1-a))` with `R = 6 371 000` m. -/
noncomputable def haversineSpec (lat1 lon1 lat2 lon2 : ℝ) : ℝ :=
  let R : ℝ := 6371000
  let a := Real.sin ((lat2 - lat1) * Real.pi / 180 / 2) ^ 2 +
    Real.cos (lat1 * Real.pi / 180) * Real.cos (lat2 * Real.pi / 180) *
      Real.sin ((lon2 - lon1) * Real.pi / 180 / 2) ^ 2
  2 * R * atan2 (Real.sqrt a) (Real.sqrt (1 - a))

/-! ## The leaderboard engine -/

/-- Reading the dict `best` at a key. -/
def lookupEntry : List (Int × ℝ × Int) → Int → Option (ℝ × Int)
  | [], _ => none
  | e :: rest, u => if e.1 = u then some e.2 else lookupEntry rest u

/-- Writing the dict `best` at a key: an existing binding is updated in
place, a new one is appended (Python dicts preserve insertion order). -/
def setEntry : List (Int × ℝ × Int) → Int → ℝ × Int → List (Int × ℝ × Int)
  | [], u, v => [(u, v.1, v.2)]
  | e :: rest, u, v => if e.1 = u then (u, v.1, v.2) :: rest else e :: setEntry rest u v

/-- The distance the engine computes for one submission:
`haversine_m(lat, lon, tlat, tlon)` (src/bot.py line 151). -/
noncomputable def submissionDist (target : ℚ × ℚ) (r : Submission) : ℝ :=
  haversine_m (r.lat : ℝ) (r.lon : ℝ) (target.1 : ℝ) (target.2 : ℝ)

/-- One iteration of the reduction loop of `best_per_user` (src/bot.py
lines 150-157): keep the incumbent unless the new submission is strictly
closer or within `1e-9` m with a strictly earlier timestamp. -/
noncomputable def bestStep (target : ℚ × ℚ) (acc : List (Int × ℝ × Int))
    (r : Submission) : List (Int × ℝ × Int) :=
  let dist := submissionDist target r
  match lookupEntry acc r.user with
  | none => setEntry acc r.user (dist, r.ts)
  | some (cd, ct) =>
    if dist < cd ∨ (|dist - cd| < 1 / 10 ^ 9 ∧ r.ts < ct) then
      setEntry acc r.user (dist, r.ts)
    else acc

/-- The sort key order of `result.sort(key=lambda x: (x[1], x[2]))`:
ascending lexicographic on (distance, timestamp). -/
def entryLe (a b : Int × ℝ × Int) : Prop :=
  a.2.1 < b.2.1 ∨ (a.2.1 = b.2.1 ∧ a.2.2 ≤ b.2.2)

noncomputable instance : DecidableRel entryLe := fun _ _ => instDecidableOr

instance : IsTotal (Int × ℝ × Int) entryLe := by
  constructor
  intro a b
  rcases lt_trichotomy a.2.1 b.2.1 with h | h | h
  · exact Or.inl (Or.inl h)
  · rcases le_total a.2.2 b.2.2 with h2 | h2
    · exact Or.inl (Or.inr ⟨h, h2⟩)
    · exact Or.inr (Or.inr ⟨h.symm, h2⟩)
  · exact Or.inr (Or.inl h)

instance : IsTrans (Int × ℝ × Int) entryLe := by
  constructor
  rintro a b c (h1 | ⟨h1, h1'⟩) (h2 | ⟨h2, h2'⟩)
  · exact Or.inl (h1.trans h2)
  · exact Or.inl (h2 ▸ h1)
  · exact Or.inl (h1 ▸ h2)
  · exact Or.inr ⟨h1.trans h2, h1'.trans h2'⟩

/-- The rows `SELECT ... FROM submissions WHERE week_id=?` returns. -/
def weekRows (subs : List Submission) (week : String) : List Submission :=
  subs.filter (fun s => s.week = week)

/-- `best_per_user` (src/bot.py lines 140-161): reduce the week's rows
to one `(user_id, best_distance, best_timestamp)` entry per user, then
sort ascending by (distance, timestamp). -/
noncomputable def best_per_user (subs : List Submission) (week : String)
    (target : ℚ × ℚ) : List (Int × ℝ × Int) :=
  List.insertionSort entryLe ((weekRows subs week).foldl (bestStep target) [])

/-- The `/leaderboard` command (src/bot.py lines 282-317), reduced to
its data semantics: normalise `top_n` (a value below 1 becomes the
default 10, then cap at 100), refuse when no target is set, otherwise
return the truncated ranking `best_per_user(...)[:top_n]`. -/
noncomputable def leaderboard (db : DB) (topn : Int) :
    Option (List (Int × ℝ × Int)) :=
  let t1 : Int := if topn < 1 then 10 else topn
  let t2 : Int := min t1 100
  match get_target db with
  | none => none
  | some target =>
    some ((best_per_user db.subs (current_week_id db) target).take t2.toNat)

/-! ## The spec-side DMS grammar (for the C5 refinement)

§4.1 of the spec describes a token as
`<degrees><separator><minutes><separator><seconds>[.<frac>]<separator><hemisphere>`
with separators "any non-digit filler" and a case-insensitive
single-letter hemisphere; the final filler before the hemisphere letter
may be empty (in the source it is `\D*`).  A token "matches" when it
contains such a shape (`re.search`), and the text must offer two
whitespace/comma-separated tokens, the first latitude, the second
longitude. -/

/-- A non-empty run of digits. -/
def IsDigits (l : List Char) : Prop := l ≠ [] ∧ ∀ c ∈ l, pyDigit c

/-- A non-empty run of non-digit filler. -/
def IsFiller (l : List Char) : Prop := l ≠ [] ∧ ∀ c ∈ l, ¬ pyDigit c

/-- The seconds field `<seconds>[.<frac>]`: digits with an optional
dot-separated fractional digit run. -/
def IsSeconds (l : List Char) : Prop :=
  IsDigits l ∨ ∃ a b, l = a ++ '.' :: b ∧ IsDigits a ∧ IsDigits b

/-- The spec grammar of one DMS token, as contained anywhere in the
token (`pre`/`post` are arbitrary surrounding text). -/
def TokenMatches (hemi : Char → Bool) (tok : List Char) : Prop :=
  ∃ pre d1 s1 d2 s2 num s3 h post,
    tok = pre ++ d1 ++ s1 ++ d2 ++ s2 ++ num ++ s3 ++ h :: post ∧
    IsDigits d1 ∧ IsFiller s1 ∧ IsDigits d2 ∧ IsFiller s2 ∧
    IsSeconds num ∧ (∀ c ∈ s3, ¬ pyDigit c) ∧ hemi h

/-- The spec-side success condition of `parseCoordinate`: the text has
at least two whitespace/comma-separated tokens, and of the first two the
first matches the latitude grammar (hemisphere N/S) and the second the
longitude grammar (hemisphere E/W). -/
def SpecParseOk (text : List Char) : Prop :=
  match dmsTokens text with
  | p0 :: p1 :: _ => TokenMatches latHemi p0 ∧ TokenMatches lonHemi p1
  | _ => False

/-! ## Concrete fixtures used by witnesses and counterexamples -/

/-- An input whose latitude is far outside [-90, 90]: 99°9'9"N. -/
def c1text : String := "99x9x9N 0x0x0E"

/-- Three equatorial submissions of one user: two at longitude 1°E
(timestamps 1 and 2) and one within a tenth of a nanometre of them
(longitude (1+10⁻¹⁵)°E, timestamp 0). -/
def c2subs : List Submission :=
  [⟨"week-1", 7, 0, 1, 1⟩, ⟨"week-1", 7, 0, 1 + 1 / 10 ^ 15, 0⟩, ⟨"week-1", 7, 0, 1, 2⟩]

/-- Two submissions of one user at distinct distances (0 m and roughly
111 km), timestamps 5 and 3. -/
def c2wsubs : List Submission :=
  [⟨"week-1", 7, 0, 0, 5⟩, ⟨"week-1", 7, 0, 1, 3⟩]

/-- A database with a target at 0°N 0°E and two users who both
submitted exactly the target. -/
def c3db : DB :=
  ⟨none, some "0x0x0N 0x0x0E", [⟨"week-1", 1, 0, 0, 1⟩, ⟨"week-1", 2, 0, 0, 2⟩]⟩

/-- A valid DMS text used by the quota fixtures. -/
def c4text : String := "1x1x1N 1x1x1E"

/-- The database after setting a target and then `n` submissions by
user 3, all built through the bot's own operations. -/
def c4chain : Nat → DB
  | 0 => (set_target_dms initDB c4text).2
  | n + 1 => (submit (c4chain n) 3 c4text 0).2

example : count_attempts (c4chain 10) "week-1" 3 = 10 := by decide
example : (submit (c4chain 10) 3 c4text 0).1 = .quotaExceeded := by decide

/-- The database after a target is set and user 5 submits the
out-of-range text `c1text`. -/
def c1db : DB := (submit (set_target_dms initDB c4text).2 5 c1text 0).2

/-! ## Ledger lemmas -/

lemma count_attempts_append_single (db : DB) (r : Submission) (w : String) (u : Int) :
    count_attempts { db with subs := db.subs ++ [r] } w u =
      count_attempts db w u + (if r.week = w ∧ r.user = u then 1 else 0) := by
  by_cases h : r.week = w ∧ r.user = u <;>
    simp [count_attempts, List.filter_append, h]

lemma count_attempts_le_ten (db : DB) (hdb : Reachable db) (w : String) (u : Int) :
    count_attempts db w u ≤ 10 := by
  induction hdb generalizing w u with
  | init => simp [count_attempts, initDB]
  | startWeek db' w' _ ih =>
    simpa [count_attempts, start_week, set_week_id] using ih w u
  | setTarget db' s _ ih =>
    rcases hp : parse_dms_pair s.data with _ | q <;>
      simpa [count_attempts, set_target_dms, hp] using ih w u
  | submits db' u' text now _ ih =>
    rcases ht : get_target db' with _ | t
    · simpa [submit, ht] using ih w u
    · by_cases hq : 10 ≤ count_attempts db' (current_week_id db') u'
      · simpa [submit, ht, hq] using ih w u
      · rcases hp : parse_dms_pair text.data with _ | ⟨lat, lon⟩
        · simpa [submit, ht, hq, hp] using ih w u
        · have hstep : (submit db' u' text now).2 =
              { db' with subs := db'.subs ++ [⟨current_week_id db', u', lat, lon, now⟩] } := by
            simp [submit, ht, hq, hp, add_submission]
          rw [hstep, count_attempts_append_single]
          show count_attempts db' w u +
              (if current_week_id db' = w ∧ u' = u then 1 else 0) ≤ 10
          by_cases hm : current_week_id db' = w ∧ u' = u
          · rw [if_pos hm]
            rcases hm with ⟨hw, hu⟩
            subst hw; subst hu
            have hlt := Nat.lt_of_not_le hq
            omega
          · rw [if_neg hm]
            simpa using ih w u

lemma reachable_c4chain (n : Nat) : Reachable (c4chain n) := by
  induction n with
  | zero => exact Reachable.setTarget initDB c4text Reachable.init
  | succ n ih => exact Reachable.submits (c4chain n) 3 c4text 0 ih

/-- C4: in every reachable database a user has at most 10 submissions
per week, and once a user's count for the current week is exactly 10
(and a target is set, so that the quota branch is reached), a further
`submit` returns `QuotaExceededError` and leaves the database — hence
the submission ledger — unchanged. -/
theorem C4_quota (db : DB) (hdb : Reachable db) :
    (∀ w u, count_attempts db w u ≤ 10) ∧
    (∀ u text now, get_target db ≠ none →
      count_attempts db (current_week_id db) u = 10 →
      submit db u text now = (.quotaExceeded, db)) := by
  refine ⟨count_attempts_le_ten db hdb, ?_⟩
  intro u text now htar hcount
  rcases ht : get_target db with _ | t
  · exact absurd ht htar
  · simp [submit, ht, hcount]

/-- Witness for C4 at a concrete database built by ten successful
submissions of user 3. -/
theorem C4_quota_witness :
    count_attempts (c4chain 10) "week-1" 3 ≤ 10 ∧
      submit (c4chain 10) 3 "9x9x9S 9x9x9W" 7 = (.quotaExceeded, c4chain 10) :=
  ⟨(C4_quota (c4chain 10) (reachable_c4chain 10)).1 "week-1" 3,
    (C4_quota (c4chain 10) (reachable_c4chain 10)).2 3 "9x9x9S 9x9x9W" 7
      (by decide) (by decide)⟩

/-- C10: `SubmitModal.on_submit` tests its failure conditions in the
fixed order target–quota–format: with no target it reports `noTarget`
whatever the text; with a target and 10 used attempts it reports
`quotaExceeded` whatever the text; and a `formatError` can only arise
with a target set, fewer than 10 used attempts, and unparsable text. -/
theorem C10_submit_order (db : DB) (u : Int) (text : String) (now : Int) :
    (get_target db = none → submit db u text now = (.noTarget, db)) ∧
    (get_target db ≠ none → 10 ≤ count_attempts db (current_week_id db) u →
      submit db u text now = (.quotaExceeded, db)) ∧
    ((submit db u text now).1 = .formatError →
      get_target db ≠ none ∧ count_attempts db (current_week_id db) u < 10 ∧
      parse_dms_pair text.data = none) := by
  refine ⟨fun ht => by simp [submit, ht], ?_, ?_⟩
  · intro hne hq
    rcases ht : get_target db with _ | t
    · exact absurd ht hne
    · simp [submit, ht, hq]
  · intro hf
    rcases ht : get_target db with _ | t
    · simp [submit, ht] at hf
    · by_cases hq : 10 ≤ count_attempts db (current_week_id db) u
      · simp [submit, ht, hq] at hf
      · rcases hp : parse_dms_pair text.data with _ | ⟨lat, lon⟩
        · exact ⟨by simp [ht], Nat.lt_of_not_le hq, by simp [hp]⟩
        · simp [submit, ht, hq, hp] at hf

/-- Witness for C10: at a full-quota database even syntactically invalid
text is answered with the quota error, not the format error. -/
theorem C10_submit_order_witness :
    submit (c4chain 10) 3 "not coordinates at all" 0 = (.quotaExceeded, c4chain 10) :=
  (C10_submit_order (c4chain 10) 3 "not coordinates at all" 0).2.1
    (by decide) (by decide)

/-- C6: `set_target_dms` with unparsable text reports the format error
and leaves the database (hence the stored target) unchanged; with
parsable text it stores the raw DMS text, and the stored target then
reads back as exactly the parsed coordinate. -/
theorem C6_set_target (db : DB) (s : String) :
    (parse_dms_pair s.data = none → set_target_dms db s = (.formatError, db)) ∧
    (∀ q, parse_dms_pair s.data = some q →
      set_target_dms db s = (.ok, { db with target_dms := some s }) ∧
      get_target { db with target_dms := some s } = some q) := by
  constructor
  · intro hp
    simp [set_target_dms, hp]
  · intro q hp
    have hs : s ≠ "" := by
      intro he
      subst he
      simp [parse_dms_pair, dmsTokens, pyStrip, pySplit, pySplitAux,
        String.data] at hp
    exact ⟨by simp [set_target_dms, hp], by simp [get_target, hs, hp]⟩

/-- The parse of the fixture text, exposed at the level of the captured
groups (their rational value left symbolic). -/
lemma parse_c4text :
    parse_dms_pair c4text.data =
      some (groupVal ⟨"1".data, "1".data, "1".data, none, 'N'⟩,
        groupVal ⟨"1".data, "1".data, "1".data, none, 'E'⟩) := rfl

/-- Witness for C6 at a malformed and at a well-formed input. -/
theorem C6_set_target_witness :
    set_target_dms initDB "no coordinates" = (.formatError, initDB) ∧
      set_target_dms initDB c4text =
        (.ok, { initDB with target_dms := some c4text }) :=
  ⟨(C6_set_target initDB "no coordinates").1 (by decide),
    ((C6_set_target initDB c4text).2
      (groupVal ⟨"1".data, "1".data, "1".data, none, 'N'⟩,
        groupVal ⟨"1".data, "1".data, "1".data, none, 'E'⟩) parse_c4text).1⟩

/-- C7 (amended): `start_week` always clears the target, and the active
week identifier afterwards is the *stripped* `weekId`, except that a
week id that strips to the empty string reads back as the `"week-1"`
sentinel. -/
theorem C7_start_week (db : DB) (w : String) :
    get_target (start_week db w) = none ∧
    current_week_id (start_week db w) =
      (if pyStripS w = "" then "week-1" else pyStripS w) := by
  constructor
  · simp [get_target, start_week, set_week_id]
  · simp [current_week_id, start_week, set_week_id]

/-- C7 counterexample: after `start_week` with the id `" week-2 "` the
active week identifier is the stripped `"week-2"`, not the supplied
string, refuting "the active week identifier equals weekId". -/
theorem C7_counterexample :
    current_week_id (start_week initDB " week-2 ") ≠ " week-2 " := by decide

/-- C9: `dms_to_decimal` returns `|deg| + min/60 + sec/3600`, negated
exactly for a (case-insensitive) S or W hemisphere letter. -/
theorem C9_dms_to_decimal (deg mins : Int) (seconds : ℚ) (h : Char)
    (hh : h ∈ (['N', 'n', 'S', 's', 'E', 'e', 'W', 'w'] : List Char)) :
    dms_to_decimal deg mins seconds h =
      (if h ∈ (['S', 's', 'W', 'w'] : List Char) then
        -(|(deg : ℚ)| + (mins : ℚ) / 60 + seconds / 3600)
      else |(deg : ℚ)| + (mins : ℚ) / 60 + seconds / 3600) := by
  fin_cases hh <;>
    simp only [dms_to_decimal] <;>
    first
      | (rw [if_pos (by decide), if_pos (by decide)])
      | (rw [if_neg (by decide), if_neg (by decide)])

/-- Witness for C9 at the lowercase southern hemisphere. -/
theorem C9_dms_to_decimal_witness :
    dms_to_decimal 18 24 56 's' =
      (if 's' ∈ (['S', 's', 'W', 'w'] : List Char) then
        -(|(18 : ℚ)| + (24 : ℚ) / 60 + (56 : ℚ) / 3600)
      else |(18 : ℚ)| + (24 : ℚ) / 60 + (56 : ℚ) / 3600) :=
  C9_dms_to_decimal 18 24 56 's' (by decide)

/-! ## Correctness of the embedded regex search (towards C5) -/

lemma span_exact {p : Char → Bool} {a b : List Char} (ha : ∀ c ∈ a, p c)
    (hb : ∀ x t, b = x :: t → p x = false) :
    (a ++ b).takeWhile p = a ∧ (a ++ b).dropWhile p = b := by
  have htw : b.takeWhile p = [] := by
    cases hbb : b with
    | nil => simp
    | cons x t =>
      have hx : ¬ p x = true := by simp [hb x t hbb]
      simp [List.takeWhile_cons_of_neg hx]
  have hdw : b.dropWhile p = b := by
    cases hbb : b with
    | nil => simp
    | cons x t =>
      have hx : ¬ p x = true := by simp [hb x t hbb]
      rw [List.dropWhile_cons_of_neg hx]
  rw [List.takeWhile_append_of_pos ha, List.dropWhile_append_of_pos ha, htw, hdw]
  simp

lemma reqRun_eq_some {p : Char → Bool} {s : List Char} {a b : List Char} :
    reqRun p s = some (a, b) ↔
      s.takeWhile p = a ∧ s.dropWhile p = b ∧ s.takeWhile p ≠ [] := by
  unfold reqRun
  by_cases h : (s.takeWhile p).isEmpty
  · have he : s.takeWhile p = [] := by simpa using h
    simp [h, he]
  · have hne : s.takeWhile p ≠ [] := by simpa using h
    rw [if_neg (by simpa using h)]
    simp [hne]

lemma reqRun_spec {p : Char → Bool} {s : List Char} {a b : List Char}
    (h : reqRun p s = some (a, b)) :
    s = a ++ b ∧ a ≠ [] ∧ (∀ c ∈ a, p c) ∧ ∀ x t, b = x :: t → p x = false := by
  obtain ⟨h1, h2, h3⟩ := reqRun_eq_some.mp h
  subst h1
  subst h2
  refine ⟨(List.takeWhile_append_dropWhile p s).symm, h3,
    fun c hc => List.mem_takeWhile_imp hc, fun x t hxt => ?_⟩
  have := List.head?_dropWhile_not p s
  rw [hxt] at this
  simpa using this

lemma reqRun_of_span {p : Char → Bool} {a b : List Char} (ha0 : a ≠ [])
    (ha : ∀ c ∈ a, p c) (hb : ∀ x t, b = x :: t → p x = false) :
    reqRun p (a ++ b) = some (a, b) := by
  obtain ⟨h1, h2⟩ := span_exact ha hb
  exact reqRun_eq_some.mpr ⟨h1, h2, h1.symm ▸ ha0⟩

lemma finishHemi_some {hemi : Char → Bool} {d1 d2 d3 : List Char}
    {frac : Option (List Char)} {r : List Char} {g : Groups}
    (hf : finishHemi hemi d1 d2 d3 frac r = some g) :
    ∃ x y, r = x ++ g.hemi :: y ∧ (∀ c ∈ x, ¬ pyDigit c) ∧ hemi g.hemi ∧
      g = ⟨d1, d2, d3, frac, g.hemi⟩ := by
  unfold finishHemi at hf
  rcases hl : ((r.takeWhile (fun c => !pyDigit c)).filter hemi).getLast? with _ | h
  · rw [hl] at hf
    exact absurd hf (by simp)
  · rw [hl] at hf
    obtain rfl : g = ⟨d1, d2, d3, frac, h⟩ := by
      simpa using hf.symm
    have hmemf : h ∈ (r.takeWhile (fun c => !pyDigit c)).filter hemi :=
      List.mem_of_mem_getLast? hl
    rw [List.mem_filter] at hmemf
    obtain ⟨hmem, hh⟩ := hmemf
    obtain ⟨x, y, hxy⟩ := List.mem_iff_append.mp hmem
    refine ⟨x, y ++ r.dropWhile (fun c => !pyDigit c), ?_, ?_, hh, rfl⟩
    · conv_lhs => rw [← List.takeWhile_append_dropWhile (fun c => !pyDigit c) r]
      rw [hxy]
      simp
    · intro c hc
      have : c ∈ r.takeWhile (fun c => !pyDigit c) := by
        rw [hxy]
        exact List.mem_append_left _ hc
      simpa using List.mem_takeWhile_imp this

lemma finishHemi_isSome {hemi : Char → Bool} {d1 d2 d3 : List Char}
    {frac : Option (List Char)} {x y : List Char} {h : Char}
    (hx : ∀ c ∈ x, ¬ pyDigit c) (hh : hemi h) (hhd : ¬ pyDigit h) :
    (finishHemi hemi d1 d2 d3 frac (x ++ h :: y)).isSome := by
  have hpre : (x ++ h :: y).takeWhile (fun c => !pyDigit c) =
      (x ++ [h]) ++ y.takeWhile (fun c => !pyDigit c) := by
    have : x ++ h :: y = (x ++ [h]) ++ y := by simp
    rw [this, List.takeWhile_append_of_pos]
    intro c hc
    rcases List.mem_append.mp hc with hcx | hch
    · simpa using hx c hcx
    · simp only [List.mem_singleton] at hch
      subst hch
      simpa using hhd
  have hmem : h ∈ ((x ++ h :: y).takeWhile (fun c => !pyDigit c)).filter hemi := by
    rw [hpre, List.mem_filter]
    exact ⟨by simp, hh⟩
  have hne : ((x ++ h :: y).takeWhile (fun c => !pyDigit c)).filter hemi ≠ [] :=
    List.ne_nil_of_mem hmem
  unfold finishHemi
  rcases hl : (((x ++ h :: y).takeWhile (fun c => !pyDigit c)).filter hemi).getLast? with _ | h'
  · exact absurd (List.getLast?_eq_none_iff.mp hl) hne
  · simp


lemma head_append_mem {a b : List Char} {x : Char} {t : List Char}
    (h : a ++ b = x :: t) (ha : a ≠ []) : x ∈ a := by
  cases a with
  | nil => exact absurd rfl ha
  | cons c a' =>
    simp only [List.cons_append, List.cons.injEq] at h
    exact h.1 ▸ List.mem_cons_self c a'

lemma fracRun_not_dot {c : Char} {t : List Char} (hc : c ≠ '.') :
    fracRun (c :: t) = (none, c :: t) := by
  unfold fracRun
  split
  · next t' heq =>
    rw [List.cons.injEq] at heq
    exact absurd heq.1 hc
  · rfl

lemma fracRun_dot (t : List Char) :
    fracRun ('.' :: t) =
      (if (t.takeWhile pyDigit).isEmpty then (none, '.' :: t)
       else (some (t.takeWhile pyDigit), t.dropWhile pyDigit)) := rfl

lemma fracRun_nil : fracRun [] = (none, []) := rfl

lemma fracRun_cases (r5 : List Char) :
    ((fracRun r5).1 = none ∧ (fracRun r5).2 = r5) ∨
      ∃ f, (fracRun r5).1 = some f ∧ f ≠ [] ∧ (∀ c ∈ f, pyDigit c) ∧
        r5 = '.' :: (f ++ (fracRun r5).2) := by
  rcases r5 with _ | ⟨c, t⟩
  · left
    simp [fracRun_nil]
  · by_cases hc : c = '.'
    · subst hc
      rw [fracRun_dot]
      by_cases he : (t.takeWhile pyDigit).isEmpty
      · rw [if_pos he]
        left
        exact ⟨rfl, rfl⟩
      · rw [if_neg he]
        right
        exact ⟨t.takeWhile pyDigit, rfl, by simpa using he,
          fun c hc => List.mem_takeWhile_imp hc, by simp⟩
    · left
      rw [fracRun_not_dot hc]
      exact ⟨rfl, rfl⟩

lemma matchAt_some_decomp {hemi : Char → Bool} {s : List Char} {g : Groups}
    (hm : matchAt hemi s = some g) : TokenMatches hemi s := by
  unfold matchAt at hm
  rcases h1 : reqRun pyDigit s with _ | ⟨d1, r1⟩
  · rw [h1] at hm
    simp at hm
  rw [h1] at hm
  simp only [Option.bind_eq_bind, Option.some_bind] at hm
  rcases h2 : reqRun (fun c => !pyDigit c) r1 with _ | ⟨s1, r2⟩
  · rw [h2] at hm
    simp at hm
  rw [h2] at hm
  simp only [Option.bind_eq_bind, Option.some_bind] at hm
  rcases h3 : reqRun pyDigit r2 with _ | ⟨d2, r3⟩
  · rw [h3] at hm
    simp at hm
  rw [h3] at hm
  simp only [Option.bind_eq_bind, Option.some_bind] at hm
  rcases h4 : reqRun (fun c => !pyDigit c) r3 with _ | ⟨s2, r4⟩
  · rw [h4] at hm
    simp at hm
  rw [h4] at hm
  simp only [Option.bind_eq_bind, Option.some_bind] at hm
  rcases h5 : reqRun pyDigit r4 with _ | ⟨d3, r5⟩
  · rw [h5] at hm
    simp at hm
  rw [h5] at hm
  simp only [Option.bind_eq_bind, Option.some_bind] at hm
  obtain ⟨hs_eq, hd1ne, hd1, hr1hd⟩ := reqRun_spec h1
  obtain ⟨hr1_eq, hs1ne, hs1, hr2hd⟩ := reqRun_spec h2
  obtain ⟨hr2_eq, hd2ne, hd2, hr3hd⟩ := reqRun_spec h3
  obtain ⟨hr3_eq, hs2ne, hs2, hr4hd⟩ := reqRun_spec h4
  obtain ⟨hr4_eq, hd3ne, hd3, hr5hd⟩ := reqRun_spec h5
  obtain ⟨x, y, hr6_eq, hx, hhem, hg⟩ := finishHemi_some hm
  rcases fracRun_cases r5 with ⟨_, hfr⟩ | ⟨f, _, hfne, hf, hfr⟩
  · refine ⟨[], d1, s1, d2, s2, d3, x, g.hemi, y, ?_, ⟨hd1ne, hd1⟩,
      ⟨hs1ne, by simpa using hs1⟩, ⟨hd2ne, hd2⟩, ⟨hs2ne, by simpa using hs2⟩,
      Or.inl ⟨hd3ne, hd3⟩, by simpa using hx, hhem⟩
    rw [hs_eq, hr1_eq, hr2_eq, hr3_eq, hr4_eq, ← hfr, hr6_eq]
    simp
  · refine ⟨[], d1, s1, d2, s2, d3 ++ '.' :: f, x, g.hemi, y, ?_, ⟨hd1ne, hd1⟩,
      ⟨hs1ne, by simpa using hs1⟩, ⟨hd2ne, hd2⟩, ⟨hs2ne, by simpa using hs2⟩,
      Or.inr ⟨d3, f, rfl, ⟨hd3ne, hd3⟩, ⟨hfne, hf⟩⟩, by simpa using hx, hhem⟩
    rw [hs_eq, hr1_eq, hr2_eq, hr3_eq, hr4_eq, hfr, hr6_eq]
    simp

lemma takeWhile_eq_nil_of_head {p : Char → Bool} {b : List Char}
    (hb : ∀ x t, b = x :: t → p x = false) : b.takeWhile p = [] := by
  cases hbb : b with
  | nil => simp
  | cons x t =>
    have hx : ¬ p x = true := by simp [hb x t hbb]
    simp [List.takeWhile_cons_of_neg hx]

lemma dropWhile_eq_self_of_head {p : Char → Bool} {b : List Char}
    (hb : ∀ x t, b = x :: t → p x = false) : b.dropWhile p = b := by
  cases hbb : b with
  | nil => simp
  | cons x t =>
    have hx : ¬ p x = true := by simp [hb x t hbb]
    rw [List.dropWhile_cons_of_neg hx]

/-- The head of `s3 ++ h :: post` is a non-digit whenever the filler
`s3` is all non-digits and `h` is a non-digit. -/
lemma head_filler_hemi {s3 : List Char} {h : Char} {post : List Char}
    (hs3 : ∀ c ∈ s3, ¬ pyDigit c) (hhd : ¬ pyDigit h) :
    ∀ x t, s3 ++ h :: post = x :: t → pyDigit x = false := by
  intro x t hxt
  cases s3 with
  | nil =>
    simp only [List.nil_append, List.cons.injEq] at hxt
    simp [hxt.1 ▸ hhd]
  | cons c s3' =>
    simp only [List.cons_append, List.cons.injEq] at hxt
    have := hs3 c (List.mem_cons_self c s3')
    simp [hxt.1 ▸ this]

lemma decomp_matchAt_isSome {hemi : Char → Bool}
    (hnd : ∀ c, hemi c → ¬ pyDigit c) (hdot : ¬ hemi '.')
    {d1 s1 d2 s2 num s3 : List Char} {h : Char} {post : List Char}
    (hd1 : IsDigits d1) (hs1 : IsFiller s1) (hd2 : IsDigits d2) (hs2 : IsFiller s2)
    (hnum : IsSeconds num) (hs3 : ∀ c ∈ s3, ¬ pyDigit c) (hh : hemi h) :
    (matchAt hemi (d1 ++ (s1 ++ (d2 ++ (s2 ++ (num ++ (s3 ++ h :: post))))))).isSome := by
  have hhd : ¬ pyDigit h := hnd h hh
  have hshp := @head_filler_hemi s3 h post hs3 hhd
  have hnumhd : ∀ (X : List Char) x t, num ++ X = x :: t → pyDigit x = true := by
    intro X x t hxt
    rcases hnum with ⟨hne, hdig⟩ | ⟨a, b, heq, ha, hb⟩
    · exact hdig x (head_append_mem hxt hne)
    · subst heq
      rw [List.append_assoc] at hxt
      exact ha.2 x (head_append_mem hxt ha.1)
  have hq1 : reqRun pyDigit (d1 ++ (s1 ++ (d2 ++ (s2 ++ (num ++ (s3 ++ h :: post)))))) =
      some (d1, s1 ++ (d2 ++ (s2 ++ (num ++ (s3 ++ h :: post))))) := by
    refine reqRun_of_span hd1.1 hd1.2 ?_
    intro x t hxt
    have hx := head_append_mem hxt hs1.1
    simpa using hs1.2 x hx
  have hq2 : reqRun (fun c => !pyDigit c) (s1 ++ (d2 ++ (s2 ++ (num ++ (s3 ++ h :: post))))) =
      some (s1, d2 ++ (s2 ++ (num ++ (s3 ++ h :: post)))) := by
    refine reqRun_of_span hs1.1 (fun c hc => by simpa using hs1.2 c hc) ?_
    intro x t hxt
    have hx := head_append_mem hxt hd2.1
    simp [hd2.2 x hx]
  have hq3 : reqRun pyDigit (d2 ++ (s2 ++ (num ++ (s3 ++ h :: post)))) =
      some (d2, s2 ++ (num ++ (s3 ++ h :: post))) := by
    refine reqRun_of_span hd2.1 hd2.2 ?_
    intro x t hxt
    have hx := head_append_mem hxt hs2.1
    simpa using hs2.2 x hx
  have hq4 : reqRun (fun c => !pyDigit c) (s2 ++ (num ++ (s3 ++ h :: post))) =
      some (s2, num ++ (s3 ++ h :: post)) := by
    refine reqRun_of_span hs2.1 (fun c hc => by simpa using hs2.2 c hc) ?_
    intro x t hxt
    simp [hnumhd _ x t hxt]
  rcases hnum with ⟨hn_ne, hn_dig⟩ | ⟨a, b, heq, ha, hb⟩
  · -- seconds without a fractional part
    have hq5 : reqRun pyDigit (num ++ (s3 ++ h :: post)) =
        some (num, s3 ++ h :: post) := reqRun_of_span hn_ne hn_dig hshp
    have hfr : fracRun (s3 ++ h :: post) = (none, s3 ++ h :: post) := by
      cases hs3c : s3 with
      | nil =>
        have hne : h ≠ '.' := fun heq => hdot (heq ▸ hh)
        simpa using fracRun_not_dot hne
      | cons c s3' =>
        by_cases hc : c = '.'
        · subst hc
          subst hs3c
          rw [List.cons_append, fracRun_dot]
          have hemp : ((s3' ++ h :: post).takeWhile pyDigit) = [] :=
            takeWhile_eq_nil_of_head
              (head_filler_hemi (fun c hc => hs3 c (List.mem_cons_of_mem _ hc)) hhd)
          rw [hemp]
          simp
        · subst hs3c
          rw [List.cons_append, fracRun_not_dot hc]
    unfold matchAt
    rw [hq1]
    simp only [Option.bind_eq_bind, Option.some_bind]
    rw [hq2]
    simp only [Option.bind_eq_bind, Option.some_bind]
    rw [hq3]
    simp only [Option.bind_eq_bind, Option.some_bind]
    rw [hq4]
    simp only [Option.bind_eq_bind, Option.some_bind]
    rw [hq5]
    simp only [Option.bind_eq_bind, Option.some_bind]
    rw [hfr]
    exact finishHemi_isSome hs3 hh hhd
  · -- seconds with a fractional part: num = a ++ '.' :: b
    subst heq
    have hq5 : reqRun pyDigit ((a ++ '.' :: b) ++ (s3 ++ h :: post)) =
        some (a, '.' :: (b ++ (s3 ++ h :: post))) := by
      rw [List.append_assoc, List.cons_append]
      refine reqRun_of_span ha.1 ha.2 ?_
      intro x t hxt
      injection hxt with hx _
      rw [← hx]
      decide
    have htw : (b ++ (s3 ++ h :: post)).takeWhile pyDigit = b :=
      (span_exact hb.2 hshp).1
    have hdw : (b ++ (s3 ++ h :: post)).dropWhile pyDigit = s3 ++ h :: post :=
      (span_exact hb.2 hshp).2
    have hfr : fracRun ('.' :: (b ++ (s3 ++ h :: post))) =
        (some b, s3 ++ h :: post) := by
      rw [fracRun_dot, htw, hdw]
      rw [if_neg (by simpa using hb.1)]
    unfold matchAt
    rw [hq1]
    simp only [Option.bind_eq_bind, Option.some_bind]
    rw [hq2]
    simp only [Option.bind_eq_bind, Option.some_bind]
    rw [hq3]
    simp only [Option.bind_eq_bind, Option.some_bind]
    rw [hq4]
    simp only [Option.bind_eq_bind, Option.some_bind]
    have hassoc : a ++ '.' :: b ++ (s3 ++ h :: post) =
        (a ++ '.' :: b) ++ (s3 ++ h :: post) := by
      simp [List.append_assoc]
    rw [hassoc, hq5]
    simp only [Option.bind_eq_bind, Option.some_bind]
    rw [hfr]
    exact finishHemi_isSome hs3 hh hhd

lemma tokenMatches_nil {hemi : Char → Bool} : ¬ TokenMatches hemi [] := by
  rintro ⟨pre, d1, s1, d2, s2, num, s3, hch, post, heq, -⟩
  have hlen := congrArg List.length heq
  simp only [List.length_nil, List.length_append, List.length_cons] at hlen
  omega

lemma tokenMatches_cons {hemi : Char → Bool} {c : Char} {t : List Char}
    (h : TokenMatches hemi t) : TokenMatches hemi (c :: t) := by
  obtain ⟨pre, d1, s1, d2, s2, num, s3, hch, post, heq, hr⟩ := h
  exact ⟨c :: pre, d1, s1, d2, s2, num, s3, hch, post, by rw [heq]; rfl, hr⟩

lemma matchAt_none_decomp_cons {hemi : Char → Bool}
    (hnd : ∀ c, hemi c → ¬ pyDigit c) (hdot : ¬ hemi '.') {c : Char} {t : List Char}
    (hm : matchAt hemi (c :: t) = none) (h : TokenMatches hemi (c :: t)) :
    TokenMatches hemi t := by
  obtain ⟨pre, d1, s1, d2, s2, num, s3, hch, post, heq, hd1, hs1, hd2, hs2, hnum, hs3, hh⟩ := h
  cases pre with
  | nil =>
    exfalso
    have heq' : c :: t = d1 ++ (s1 ++ (d2 ++ (s2 ++ (num ++ (s3 ++ hch :: post))))) := by
      rw [heq]
      simp [List.append_assoc]
    have hsome := @decomp_matchAt_isSome hemi hnd hdot d1 s1 d2 s2 num s3 hch post
      hd1 hs1 hd2 hs2 hnum hs3 hh
    rw [← heq', hm] at hsome
    simp at hsome
  | cons c' pre' =>
    have heq' : c :: t =
        c' :: (pre' ++ (d1 ++ (s1 ++ (d2 ++ (s2 ++ (num ++ (s3 ++ hch :: post))))))) := by
      rw [heq]
      simp [List.append_assoc]
    injection heq' with hc ht
    refine ⟨pre', d1, s1, d2, s2, num, s3, hch, post, ?_, hd1, hs1, hd2, hs2, hnum, hs3, hh⟩
    rw [ht]
    simp [List.append_assoc]

lemma searchTok_isSome_iff {hemi : Char → Bool}
    (hnd : ∀ c, hemi c → ¬ pyDigit c) (hdot : ¬ hemi '.') (tok : List Char) :
    (searchTok hemi tok).isSome ↔ TokenMatches hemi tok := by
  induction tok with
  | nil => simp [searchTok, tokenMatches_nil]
  | cons c t ih =>
    unfold searchTok
    rcases hm : matchAt hemi (c :: t) with _ | g
    · simp only [Option.isSome]
      constructor
      · intro hs
        exact tokenMatches_cons (ih.mp (by simpa using hs))
      · intro hTM
        simpa using ih.mpr (matchAt_none_decomp_cons hnd hdot hm hTM)
    · simp only [Option.isSome_some]
      exact iff_of_true trivial (matchAt_some_decomp hm)

lemma latHemi_nondigit : ∀ c, latHemi c → ¬ pyDigit c := by
  intro c hc
  simp only [latHemi, decide_eq_true_eq] at hc
  rcases hc with rfl | rfl | rfl | rfl <;> decide

lemma lonHemi_nondigit : ∀ c, lonHemi c → ¬ pyDigit c := by
  intro c hc
  simp only [lonHemi, decide_eq_true_eq] at hc
  rcases hc with rfl | rfl | rfl | rfl <;> decide

/-- C5: `parse_dms_pair` fails exactly when the text does not offer two
whitespace/comma-separated tokens whose first two members contain, in
order, a latitude-shaped and a longitude-shaped DMS token of the spec's
grammar (`SpecParseOk`). -/
theorem C5_parse_failure_iff (text : List Char) :
    parse_dms_pair text = none ↔ ¬ SpecParseOk text := by
  unfold parse_dms_pair SpecParseOk
  rcases dmsTokens text with _ | ⟨p0, rest⟩
  · simp
  rcases rest with _ | ⟨p1, rest2⟩
  · simp
  have hlat := searchTok_isSome_iff latHemi_nondigit (by decide) p0
  have hlon := searchTok_isSome_iff lonHemi_nondigit (by decide) p1
  rcases hs0 : searchTok latHemi p0 with _ | g1 <;>
    rcases hs1 : searchTok lonHemi p1 with _ | g2 <;>
    rw [hs0] at hlat <;> rw [hs1] at hlon <;>
    simp only [hs0, hs1] <;> simp at hlat hlon ⊢ <;> tauto

/-! ## Distance lemmas -/

lemma sin_sq_abs (x : ℝ) : Real.sin x ^ 2 = Real.sin |x| ^ 2 := by
  rcases abs_cases x with ⟨h, _⟩ | ⟨h, _⟩
  · rw [h]
  · rw [h, Real.sin_neg]
    ring

lemma atan2_sin_cos {θ : ℝ} (h0 : 0 ≤ θ) (h1 : θ < Real.pi / 2) :
    atan2 (Real.sin θ) (Real.cos θ) = θ := by
  have hc : 0 < Real.cos θ :=
    Real.cos_pos_of_mem_Ioo ⟨by linarith [Real.pi_pos], h1⟩
  unfold atan2
  rw [if_pos hc, ← Real.tan_eq_sin_div_cos]
  exact Real.arctan_tan (by linarith [Real.pi_pos]) h1

/-- On the equator the haversine distance is exactly
`R · (π/180) · |Δlongitude|` (for deltas below 180°). -/
lemma hav_equator (a b : ℝ) (hb : |b - a| < 180) :
    haversine_m 0 a 0 b = 6371000 * (Real.pi / 180) * |b - a| := by
  have hpi := Real.pi_pos
  have habs : (0 : ℝ) ≤ |b - a| := abs_nonneg _
  set θ : ℝ := |b - a| * Real.pi / 360 with hθ
  have hθ0 : 0 ≤ θ := by
    rw [hθ]
    positivity
  have hθlt : θ < Real.pi / 2 := by
    rw [hθ]
    nlinarith [mul_pos (sub_pos.mpr hb) hpi]
  have hθpi : θ ≤ Real.pi := by linarith
  have hsin0 : 0 ≤ Real.sin θ := Real.sin_nonneg_of_nonneg_of_le_pi hθ0 hθpi
  have hcos0 : 0 < Real.cos θ :=
    Real.cos_pos_of_mem_Ioo ⟨by linarith, hθlt⟩
  simp only [haversine_m, radians]
  have e1 : (0 - 0 : ℝ) * Real.pi / 180 / 2 = 0 := by ring
  have e2 : (0 : ℝ) * Real.pi / 180 = 0 := by ring
  have e3 : (b - a) * Real.pi / 180 / 2 = (b - a) * Real.pi / 360 := by ring
  rw [e1, e2, e3, Real.sin_zero, Real.cos_zero]
  have e4 : Real.sin ((b - a) * Real.pi / 360) ^ 2 = Real.sin θ ^ 2 := by
    rw [sin_sq_abs, hθ]
    congr 2
    rw [abs_div, abs_mul, abs_of_pos hpi]
    norm_num
  have e5 : (0 : ℝ) ^ 2 + 1 * 1 * Real.sin θ ^ 2 = Real.sin θ ^ 2 := by ring
  rw [e4, e5]
  have e6 : (1 : ℝ) - Real.sin θ ^ 2 = Real.cos θ ^ 2 := by
    rw [Real.cos_sq']
  rw [e6, Real.sqrt_sq hsin0, Real.sqrt_sq hcos0.le, atan2_sin_cos hθ0 hθlt]
  rw [hθ]
  ring

/-- C8: `haversine_m` computes exactly the haversine formula of §4.2 of
the spec (Earth radius 6 371 000 m), and the quarter-great-circle
fixture from (0°N, 0°E) to (0°N, 90°E) evaluates to 10 007 543 m up to
a few metres. -/
theorem C8_haversine (lat1 lon1 lat2 lon2 : ℝ) :
    haversine_m lat1 lon1 lat2 lon2 = haversineSpec lat1 lon1 lat2 lon2 ∧
    |haversine_m 0 0 0 90 - 10007543| < 5 := by
  constructor
  · simp only [haversine_m, haversineSpec, radians]
    ring
  · rw [hav_equator 0 90 (by norm_num),
      show |(90 : ℝ) - 0| = 90 from by norm_num]
    have h1 := Real.pi_gt_d6
    have h2 := Real.pi_lt_d6
    rw [abs_lt]
    constructor <;> nlinarith

/-! ## Parse-value bounds (towards C1) -/

lemma digitsToInt_nonneg (l : List Char) : 0 ≤ digitsToInt l :=
  Int.natCast_nonneg _

lemma numVal_nonneg (d : List Char) (frac : Option (List Char)) :
    0 ≤ numVal d frac := by
  unfold numVal
  have h1 : (0 : ℚ) ≤ (digitsToInt d : ℚ) := by
    exact_mod_cast digitsToInt_nonneg d
  rcases frac with _ | f
  · simpa using h1
  · have h2 : (0 : ℚ) ≤ (digitsToInt f : ℚ) / 10 ^ f.length := by
      apply div_nonneg
      · exact_mod_cast digitsToInt_nonneg f
      · positivity
    exact add_nonneg h1 h2

lemma dms_to_decimal_abs_le {deg mins : Int} {sec : ℚ} {h : Char} {B : Int}
    (hdeg0 : 0 ≤ deg) (hdeg : deg ≤ B) (hmin0 : 0 ≤ mins) (hmin : mins ≤ 59)
    (hsec0 : 0 ≤ sec) (hsec : sec ≤ 60) :
    |dms_to_decimal deg mins sec h| ≤ (B : ℚ) + 1 := by
  have hq0 : (0 : ℚ) ≤ (deg : ℚ) := by exact_mod_cast hdeg0
  have hqB : (deg : ℚ) ≤ (B : ℚ) := by exact_mod_cast hdeg
  have hm0 : (0 : ℚ) ≤ (mins : ℚ) := by exact_mod_cast hmin0
  have hmB : (mins : ℚ) ≤ 59 := by exact_mod_cast hmin
  have habs : |(deg : ℚ)| = (deg : ℚ) := abs_of_nonneg hq0
  have hdec0 : (0 : ℚ) ≤ |(deg : ℚ)| + (mins : ℚ) / 60 + sec / 3600 := by
    rw [habs]
    positivity
  have hdecB : |(deg : ℚ)| + (mins : ℚ) / 60 + sec / 3600 ≤ (B : ℚ) + 1 := by
    rw [habs]
    linarith
  unfold dms_to_decimal
  by_cases hw : h.toUpper = 'S' ∨ h.toUpper = 'W'
  · rw [if_pos hw, abs_neg, abs_of_nonneg hdec0]
    exact hdecB
  · rw [if_neg hw, abs_of_nonneg hdec0]
    exact hdecB

/-- C1 (amended): a successful parse returns exactly the DMS conversion
of the two matched groups of the first two tokens, with no bounds check;
the result is guaranteed inside [-90, 90] × [-180, 180] only when the
matched components are conventional (degrees at most 89 resp. 179,
minutes at most 59, seconds at most 60). -/
theorem C1_parse_bounds (text : List Char) (p0 p1 : List Char)
    (rest : List (List Char)) (g1 g2 : Groups)
    (htok : dmsTokens text = p0 :: p1 :: rest)
    (h1 : searchTok latHemi p0 = some g1) (h2 : searchTok lonHemi p1 = some g2) :
    parse_dms_pair text = some (groupVal g1, groupVal g2) ∧
    (digitsToInt g1.d1 ≤ 89 → digitsToInt g1.d2 ≤ 59 →
      numVal g1.d3 g1.frac ≤ 60 → |groupVal g1| ≤ 90) ∧
    (digitsToInt g2.d1 ≤ 179 → digitsToInt g2.d2 ≤ 59 →
      numVal g2.d3 g2.frac ≤ 60 → |groupVal g2| ≤ 180) := by
  refine ⟨by simp [parse_dms_pair, htok, h1, h2], ?_, ?_⟩
  · intro hb1 hb2 hb3
    have hle := @dms_to_decimal_abs_le (digitsToInt g1.d1) (digitsToInt g1.d2)
      (numVal g1.d3 g1.frac) g1.hemi 89 (digitsToInt_nonneg g1.d1) hb1
      (digitsToInt_nonneg g1.d2) hb2 (numVal_nonneg g1.d3 g1.frac) hb3
    rw [show ((89 : Int) : ℚ) + 1 = 90 from by norm_num] at hle
    simpa [groupVal] using hle
  · intro hb1 hb2 hb3
    have hle := @dms_to_decimal_abs_le (digitsToInt g2.d1) (digitsToInt g2.d2)
      (numVal g2.d3 g2.frac) g2.hemi 179 (digitsToInt_nonneg g2.d1) hb1
      (digitsToInt_nonneg g2.d2) hb2 (numVal_nonneg g2.d3 g2.frac) hb3
    rw [show ((179 : Int) : ℚ) + 1 = 180 from by norm_num] at hle
    simpa [groupVal] using hle

lemma groupVal_99N : groupVal ⟨"99".data, "9".data, "9".data, none, 'N'⟩ =
    356949 / 3600 := by
  simp only [groupVal, dms_to_decimal, numVal]
  rw [show digitsToInt "99".data = 99 from by decide,
    show digitsToInt "9".data = 9 from by decide]
  rw [if_neg (by decide)]
  norm_num

lemma groupVal_0E : groupVal ⟨"0".data, "0".data, "0".data, none, 'E'⟩ = 0 := by
  simp only [groupVal, dms_to_decimal, numVal]
  rw [show digitsToInt "0".data = 0 from by decide]
  rw [if_neg (by decide)]
  norm_num

lemma groupVal_0N : groupVal ⟨"0".data, "0".data, "0".data, none, 'N'⟩ = 0 := by
  simp only [groupVal, dms_to_decimal, numVal]
  rw [show digitsToInt "0".data = 0 from by decide]
  rw [if_neg (by decide)]
  norm_num

lemma parse_c1text : parse_dms_pair c1text.data = some (356949 / 3600, 0) := by
  rw [show parse_dms_pair c1text.data =
      some (groupVal ⟨"99".data, "9".data, "9".data, none, 'N'⟩,
        groupVal ⟨"0".data, "0".data, "0".data, none, 'E'⟩) from rfl,
    groupVal_99N, groupVal_0E]

/-- C1 counterexample: the text 99°9'9"N 0°0'0"E parses successfully to
a latitude of 356949/3600 ≈ 99.15 > 90, and submitting it stores that
out-of-range latitude in the ledger. -/
theorem C1_counterexample :
    parse_dms_pair c1text.data = some (356949 / 3600, 0) ∧
    ¬ ((356949 : ℚ) / 3600 ≤ 90) ∧
    c1db.subs.map (fun r => r.lat) = [356949 / 3600] := by
  refine ⟨parse_c1text, by norm_num, ?_⟩
  have hsubs : c1db.subs =
      [⟨"week-1", 5, groupVal ⟨"99".data, "9".data, "9".data, none, 'N'⟩,
        groupVal ⟨"0".data, "0".data, "0".data, none, 'E'⟩, 0⟩] := rfl
  rw [hsubs]
  simp only [List.map_cons, List.map_nil]
  rw [groupVal_99N]

/-- Witness for the amended C1 at the example input of the bot's own
placeholder text. -/
theorem C1_parse_bounds_witness :
    parse_dms_pair "18x24x56N 13x1x56E".data =
      some (groupVal ⟨"18".data, "24".data, "56".data, none, 'N'⟩,
        groupVal ⟨"13".data, "1".data, "56".data, none, 'E'⟩) ∧
    (digitsToInt "18".data ≤ 89 → digitsToInt "24".data ≤ 59 →
      numVal "56".data none ≤ 60 →
      |groupVal ⟨"18".data, "24".data, "56".data, none, 'N'⟩| ≤ 90) ∧
    (digitsToInt "13".data ≤ 179 → digitsToInt "1".data ≤ 59 →
      numVal "56".data none ≤ 60 →
      |groupVal ⟨"13".data, "1".data, "56".data, none, 'E'⟩| ≤ 180) :=
  C1_parse_bounds "18x24x56N 13x1x56E".data "18x24x56N".data "13x1x56E".data []
    ⟨"18".data, "24".data, "56".data, none, 'N'⟩
    ⟨"13".data, "1".data, "56".data, none, 'E'⟩ (by decide) (by decide) (by decide)

/-! ## The per-user reduction (towards C2) -/

lemma lookupEntry_single {u : Int} {d : ℝ} {ts : Int} {k : Int} (hk : k = u) :
    lookupEntry [(u, d, ts)] k = some (d, ts) := by
  simp [lookupEntry, hk]

lemma bestStep_start (t : ℚ × ℚ) (r : Submission) :
    bestStep t [] r = [(r.user, submissionDist t r, r.ts)] := by
  simp [bestStep, lookupEntry, setEntry]

lemma bestStep_single {t : ℚ × ℚ} {u : Int} {d : ℝ} {ts : Int} (r : Submission)
    (hu : r.user = u) :
    bestStep t [(u, d, ts)] r =
      [(u, if submissionDist t r < d ∨
          (|submissionDist t r - d| < 1 / 10 ^ 9 ∧ r.ts < ts)
        then (submissionDist t r, r.ts) else (d, ts))] := by
  unfold bestStep
  rw [lookupEntry_single hu]
  dsimp only
  by_cases h : submissionDist t r < d ∨
      (|submissionDist t r - d| < 1 / 10 ^ 9 ∧ r.ts < ts)
  · rw [if_pos h, if_pos h]
    simp [setEntry, hu]
  · rw [if_neg h, if_neg h]

/-- The reduction loop over one user's submissions: starting from an
incumbent `(d, ts)`, and provided any two of the involved distances that
lie within `1e-9` of each other are exactly equal, the loop returns the
entry of minimum distance, with exact distance ties broken by the
earliest timestamp. -/
lemma fold_single {t : ℚ × ℚ} {u : Int} (rows : List Submission)
    (hu : ∀ r ∈ rows, r.user = u) (d : ℝ) (ts : Int)
    (htie : ∀ x ∈ d :: rows.map (submissionDist t),
      ∀ y ∈ d :: rows.map (submissionDist t), |x - y| < 1 / 10 ^ 9 → x = y) :
    ∃ q : ℝ × Int,
      List.foldl (bestStep t) [(u, d, ts)] rows = [(u, q.1, q.2)] ∧
      ((q.1 = d ∧ q.2 = ts) ∨ ∃ r ∈ rows, q.1 = submissionDist t r ∧ q.2 = r.ts) ∧
      q.1 ≤ d ∧ (∀ r ∈ rows, q.1 ≤ submissionDist t r) ∧
      (q.1 = d → q.2 ≤ ts) ∧
      (∀ r ∈ rows, submissionDist t r = q.1 → q.2 ≤ r.ts) := by
  induction rows generalizing d ts with
  | nil =>
    exact ⟨(d, ts), by simp, Or.inl ⟨rfl, rfl⟩, le_refl d, by simp,
      fun _ => le_refl ts, by simp⟩
  | cons r0 rows ih =>
    have hu0 : r0.user = u := hu r0 (List.mem_cons_self _ _)
    have hu' : ∀ r ∈ rows, r.user = u := fun r hr => hu r (List.mem_cons_of_mem _ hr)
    have hmap : (r0 :: rows).map (submissionDist t) =
        submissionDist t r0 :: rows.map (submissionDist t) := List.map_cons _ _ _
    have hmem_d : d ∈ d :: (r0 :: rows).map (submissionDist t) :=
      List.mem_cons_self _ _
    have hmem_d0 : submissionDist t r0 ∈ d :: (r0 :: rows).map (submissionDist t) := by
      rw [hmap]
      exact List.mem_cons_of_mem _ (List.mem_cons_self _ _)
    have hsub : ∀ x ∈ submissionDist t r0 :: rows.map (submissionDist t),
        x ∈ d :: (r0 :: rows).map (submissionDist t) := by
      intro x hx
      rw [hmap]
      exact List.mem_cons_of_mem _ hx
    have hsub2 : ∀ x ∈ d :: rows.map (submissionDist t),
        x ∈ d :: (r0 :: rows).map (submissionDist t) := by
      intro x hx
      rcases List.mem_cons.mp hx with rfl | hx'
      · exact List.mem_cons_self _ _
      · rw [hmap]
        exact List.mem_cons_of_mem _ (List.mem_cons_of_mem _ hx')
    have hcond : (submissionDist t r0 < d ∨
        (|submissionDist t r0 - d| < 1 / 10 ^ 9 ∧ r0.ts < ts)) ↔
        (submissionDist t r0 < d ∨ (submissionDist t r0 = d ∧ r0.ts < ts)) := by
      constructor
      · rintro (h | ⟨ha, hts⟩)
        · exact Or.inl h
        · exact Or.inr ⟨htie _ hmem_d0 _ hmem_d ha, hts⟩
      · rintro (h | ⟨ha, hts⟩)
        · exact Or.inl h
        · refine Or.inr ⟨?_, hts⟩
          rw [ha, sub_self, abs_zero]
          norm_num
    by_cases hlex : submissionDist t r0 < d ∨ (submissionDist t r0 = d ∧ r0.ts < ts)
    · have htie' : ∀ x ∈ submissionDist t r0 :: rows.map (submissionDist t),
          ∀ y ∈ submissionDist t r0 :: rows.map (submissionDist t),
          |x - y| < 1 / 10 ^ 9 → x = y :=
        fun x hx y hy => htie x (hsub x hx) y (hsub y hy)
      obtain ⟨q, hfold, hmem, hle_d, hle_rows, hts_d, hts_rows⟩ :=
        ih hu' (submissionDist t r0) r0.ts htie'
      have hd0le : submissionDist t r0 ≤ d := by
        rcases hlex with h | ⟨h, _⟩
        · exact h.le
        · exact h.le
      refine ⟨q, ?_, ?_, ?_, ?_, ?_, ?_⟩
      · rw [List.foldl_cons, bestStep_single r0 hu0, if_pos (hcond.mpr hlex)]
        exact hfold
      · rcases hmem with ⟨h1, h2⟩ | ⟨r, hr, h1, h2⟩
        · exact Or.inr ⟨r0, List.mem_cons_self _ _, h1, h2⟩
        · exact Or.inr ⟨r, List.mem_cons_of_mem _ hr, h1, h2⟩
      · exact hle_d.trans hd0le
      · intro r hr
        rcases List.mem_cons.mp hr with rfl | hr'
        · exact hle_d
        · exact hle_rows r hr'
      · intro hq
        rcases hlex with h | ⟨h, hts⟩
        · exact absurd hq (by push_neg; exact lt_of_le_of_lt hle_d h |>.ne)
        · exact (hts_d (hq.trans h.symm)).trans hts.le
      · intro r hr hrq
        rcases List.mem_cons.mp hr with rfl | hr'
        · exact hts_d hrq.symm
        · exact hts_rows r hr' hrq
    · have htie' : ∀ x ∈ d :: rows.map (submissionDist t),
          ∀ y ∈ d :: rows.map (submissionDist t),
          |x - y| < 1 / 10 ^ 9 → x = y :=
        fun x hx y hy => htie x (hsub2 x hx) y (hsub2 y hy)
      obtain ⟨q, hfold, hmem, hle_d, hle_rows, hts_d, hts_rows⟩ := ih hu' d ts htie'
      push_neg at hlex
      obtain ⟨hnlt, hnts⟩ := hlex
      have hd_le_d0 : d ≤ submissionDist t r0 := hnlt
      refine ⟨q, ?_, ?_, ?_, ?_, ?_, ?_⟩
      · rw [List.foldl_cons, bestStep_single r0 hu0,
          if_neg (by rw [hcond]; push_neg; exact ⟨hnlt, hnts⟩)]
        exact hfold
      · rcases hmem with ⟨h1, h2⟩ | ⟨r, hr, h1, h2⟩
        · exact Or.inl ⟨h1, h2⟩
        · exact Or.inr ⟨r, List.mem_cons_of_mem _ hr, h1, h2⟩
      · exact hle_d
      · intro r hr
        rcases List.mem_cons.mp hr with rfl | hr'
        · exact hle_d.trans hd_le_d0
        · exact hle_rows r hr'
      · exact hts_d
      · intro r hr hrq
        rcases List.mem_cons.mp hr with rfl | hr'
        · have hqd : q.1 = d := le_antisymm hle_d (hrq ▸ hd_le_d0)
          have hd0d : submissionDist t r = d := hrq.trans hqd
          exact (hts_d hqd).trans (hnts hd0d)
        · exact hts_rows r hr' hrq

/-- C2 (amended): the per-user reduction is the source's left fold in
storage order; whenever any two of the user's submission distances that
lie within `1e-9` m of each other are exactly equal (in particular
whenever no two distinct distances are that close), the selected entry
is one of the user's submissions of minimum distance, and among the
submissions of exactly that distance it carries the earliest
submitted_at. -/
theorem C2_best_selection (subs : List Submission) (w : String) (t : ℚ × ℚ) (u : Int)
    (hne : weekRows subs w ≠ [])
    (hu : ∀ r ∈ weekRows subs w, r.user = u)
    (htie : ∀ r ∈ weekRows subs w, ∀ r' ∈ weekRows subs w,
      |submissionDist t r - submissionDist t r'| < 1 / 10 ^ 9 →
      submissionDist t r = submissionDist t r') :
    ∃ r0 ∈ weekRows subs w,
      best_per_user subs w t = [(u, submissionDist t r0, r0.ts)] ∧
      (∀ r ∈ weekRows subs w, submissionDist t r0 ≤ submissionDist t r) ∧
      (∀ r ∈ weekRows subs w,
        submissionDist t r = submissionDist t r0 → r0.ts ≤ r.ts) := by
  rcases hrows : weekRows subs w with _ | ⟨rh, rest⟩
  · exact absurd hrows hne
  have hmem_of : ∀ x ∈ submissionDist t rh :: rest.map (submissionDist t),
      ∃ r ∈ weekRows subs w, x = submissionDist t r := by
    intro x hx
    rcases List.mem_cons.mp hx with rfl | hx'
    · exact ⟨rh, by rw [hrows]; exact List.mem_cons_self _ _, rfl⟩
    · obtain ⟨r, hr, hxe⟩ := List.mem_map.mp hx'
      exact ⟨r, by rw [hrows]; exact List.mem_cons_of_mem _ hr, hxe.symm⟩
  have huh : rh.user = u := hu rh (by rw [hrows]; exact List.mem_cons_self _ _)
  have hu' : ∀ r ∈ rest, r.user = u := fun r hr =>
    hu r (by rw [hrows]; exact List.mem_cons_of_mem _ hr)
  have htie' : ∀ x ∈ submissionDist t rh :: rest.map (submissionDist t),
      ∀ y ∈ submissionDist t rh :: rest.map (submissionDist t),
      |x - y| < 1 / 10 ^ 9 → x = y := by
    intro x hx y hy habs
    obtain ⟨r, hr, rfl⟩ := hmem_of x hx
    obtain ⟨r', hr', rfl⟩ := hmem_of y hy
    exact htie r hr r' hr' habs
  obtain ⟨q, hfold, hmemq, hle_d, hle_rows, hts_d, hts_rows⟩ :=
    fold_single rest hu' (submissionDist t rh) rh.ts htie'
  obtain ⟨r0, hr0mem, hq1, hq2⟩ :
      ∃ r0 ∈ weekRows subs w, q.1 = submissionDist t r0 ∧ q.2 = r0.ts := by
    rcases hmemq with ⟨h1, h2⟩ | ⟨r, hr, h1, h2⟩
    · exact ⟨rh, by rw [hrows]; exact List.mem_cons_self _ _, h1, h2⟩
    · exact ⟨r, by rw [hrows]; exact List.mem_cons_of_mem _ hr, h1, h2⟩
  refine ⟨r0, hrows ▸ hr0mem, ?_, ?_, ?_⟩
  · unfold best_per_user
    rw [hrows, List.foldl_cons, bestStep_start, huh, hfold, hq1, hq2]
    simp [List.insertionSort, List.orderedInsert]
  · intro r hr
    rw [← hq1]
    rcases List.mem_cons.mp hr with rfl | hr'
    · exact hle_d
    · exact hle_rows r hr'
  · intro r hr heq
    rw [← hq2]
    rcases List.mem_cons.mp hr with rfl | hr'
    · exact hts_d (heq.trans hq1.symm).symm
    · exact hts_rows r hr' (heq.trans hq1.symm)

lemma submissionDist_equator (wk : String) (uu : Int) (lon : ℚ) (ts : Int)
    (h : |(lon : ℝ)| < 180) :
    submissionDist (0, 0) ⟨wk, uu, 0, lon, ts⟩ =
      6371000 * (Real.pi / 180) * |(lon : ℝ)| := by
  show haversine_m ((0 : ℚ) : ℝ) ((lon : ℚ) : ℝ) ((0 : ℚ) : ℝ) ((0 : ℚ) : ℝ) = _
  rw [Rat.cast_zero]
  rw [hav_equator (lon : ℝ) 0 (by rwa [zero_sub, abs_neg])]
  rw [zero_sub, abs_neg]

lemma submissionDist_zero (wk : String) (uu : Int) (ts : Int) :
    submissionDist (0, 0) ⟨wk, uu, 0, 0, ts⟩ = 0 := by
  rw [submissionDist_equator wk uu 0 ts (by norm_num)]
  norm_num

lemma submissionDist_one (wk : String) (uu : Int) (ts : Int) :
    submissionDist (0, 0) ⟨wk, uu, 0, 1, ts⟩ =
      6371000 * (Real.pi / 180) := by
  rw [submissionDist_equator wk uu 1 ts (by norm_num)]
  norm_num

lemma submissionDist_one_eps (wk : String) (uu : Int) (ts : Int) :
    submissionDist (0, 0) ⟨wk, uu, 0, 1 + 1 / 10 ^ 15, ts⟩ =
      6371000 * (Real.pi / 180) * (1 + 1 / 10 ^ 15) := by
  rw [submissionDist_equator wk uu (1 + 1 / 10 ^ 15) ts ?hb]
  case hb =>
    rw [show ((((1 : ℚ) + 1 / 10 ^ 15) : ℚ) : ℝ) = 1 + 1 / 10 ^ 15 from by push_cast; ring]
    rw [abs_of_pos (by norm_num)]
    norm_num
  rw [show ((((1 : ℚ) + 1 / 10 ^ 15) : ℚ) : ℝ) = 1 + 1 / 10 ^ 15 from by push_cast; ring]
  rw [abs_of_pos (by norm_num)]

lemma c2wsubs_tie : ∀ r ∈ weekRows c2wsubs "week-1", ∀ r' ∈ weekRows c2wsubs "week-1",
    |submissionDist (0, 0) r - submissionDist (0, 0) r'| < 1 / 10 ^ 9 →
    submissionDist (0, 0) r = submissionDist (0, 0) r' := by
  have hw : weekRows c2wsubs "week-1" = c2wsubs := rfl
  rw [hw]
  have hK : (0 : ℝ) < 6371000 * (Real.pi / 180) := by positivity
  have hKbig : (1 : ℝ) / 10 ^ 9 < 6371000 * (Real.pi / 180) := by
    nlinarith [Real.pi_gt_d6]
  intro r hr r' hr' habs
  simp only [c2wsubs, List.mem_cons, List.not_mem_nil, or_false] at hr hr'
  rcases hr with rfl | rfl <;> rcases hr' with rfl | rfl
  · rfl
  · rw [submissionDist_zero, submissionDist_one, zero_sub, abs_neg,
      abs_of_pos hK] at habs
    linarith
  · rw [submissionDist_zero, submissionDist_one, sub_zero,
      abs_of_pos hK] at habs
    linarith
  · rfl

/-- Witness for the amended C2 at two submissions of one user with
distances 0 m and about 111 km. -/
theorem C2_best_selection_witness :
    ∃ r0 ∈ weekRows c2wsubs "week-1",
      best_per_user c2wsubs "week-1" (0, 0) = [(7, submissionDist (0, 0) r0, r0.ts)] ∧
      (∀ r ∈ weekRows c2wsubs "week-1",
        submissionDist (0, 0) r0 ≤ submissionDist (0, 0) r) ∧
      (∀ r ∈ weekRows c2wsubs "week-1",
        submissionDist (0, 0) r = submissionDist (0, 0) r0 → r0.ts ≤ r.ts) :=
  C2_best_selection c2wsubs "week-1" (0, 0) 7 (by decide) (by decide) c2wsubs_tie

/-- C2 counterexample: user 7 submits longitude 1° at timestamps 1 and
2 and longitude (1+10⁻¹⁵)° (about 0.1 nanometre away, far within the
1e-9 m tolerance) at timestamp 0.  The reduction selects the timestamp-2
entry although the timestamp-1 entry has exactly the same distance, so
ties within 1e-9 m are not broken by earliest submitted_at. -/
theorem C2_counterexample :
    (best_per_user c2subs "week-1" (0, 0)).map (fun e => (e.1, e.2.2)) = [(7, 2)] ∧
    |submissionDist (0, 0) (⟨"week-1", 7, 0, 1, 1⟩ : Submission) -
      submissionDist (0, 0) (⟨"week-1", 7, 0, 1, 2⟩ : Submission)| < 1 / 10 ^ 9 ∧
    (⟨"week-1", 7, 0, 1, 1⟩ : Submission) ∈ c2subs ∧
    (⟨"week-1", 7, 0, 1, 2⟩ : Submission) ∈ c2subs := by
  have hA := submissionDist_one "week-1" 7 1
  have hB := submissionDist_one_eps "week-1" 7 0
  have hC := submissionDist_one "week-1" 7 2
  have hKpos : (0 : ℝ) < 6371000 * (Real.pi / 180) := by positivity
  have hdiff : 6371000 * (Real.pi / 180) * (1 + 1 / 10 ^ 15) -
      6371000 * (Real.pi / 180) = 6371000 * (Real.pi / 180) * (1 / 10 ^ 15) := by
    ring
  have hsmall : |6371000 * (Real.pi / 180) * (1 + 1 / 10 ^ 15) -
      6371000 * (Real.pi / 180)| < 1 / 10 ^ 9 := by
    rw [hdiff, abs_of_pos (by positivity)]
    nlinarith [Real.pi_lt_d6]
  have hnotlt : ¬ (6371000 * (Real.pi / 180) * (1 + 1 / 10 ^ 15) <
      6371000 * (Real.pi / 180)) := by
    push_neg
    nlinarith [Real.pi_gt_d6]
  have hCltB : 6371000 * (Real.pi / 180) <
      6371000 * (Real.pi / 180) * (1 + 1 / 10 ^ 15) := by
    nlinarith [Real.pi_gt_d6]
  have s1 : bestStep (0, 0) [] (⟨"week-1", 7, 0, 1, 1⟩ : Submission) =
      [(7, 6371000 * (Real.pi / 180), 1)] := by
    rw [bestStep_start]
    dsimp only
    rw [hA]
  have s2 : bestStep (0, 0) [(7, 6371000 * (Real.pi / 180), 1)]
      (⟨"week-1", 7, 0, 1 + 1 / 10 ^ 15, 0⟩ : Submission) =
      [(7, 6371000 * (Real.pi / 180) * (1 + 1 / 10 ^ 15), 0)] := by
    rw [@bestStep_single (0, 0) 7 (6371000 * (Real.pi / 180)) 1
      ⟨"week-1", 7, 0, 1 + 1 / 10 ^ 15, 0⟩ rfl]
    dsimp only
    rw [hB]
    rw [if_pos (Or.inr ⟨hsmall, by decide⟩)]
  have s3 : bestStep (0, 0) [(7, 6371000 * (Real.pi / 180) * (1 + 1 / 10 ^ 15), 0)]
      (⟨"week-1", 7, 0, 1, 2⟩ : Submission) =
      [(7, 6371000 * (Real.pi / 180), 2)] := by
    rw [@bestStep_single (0, 0) 7 (6371000 * (Real.pi / 180) * (1 + 1 / 10 ^ 15)) 0
      ⟨"week-1", 7, 0, 1, 2⟩ rfl]
    dsimp only
    rw [hC]
    rw [if_pos (Or.inl hCltB)]
  refine ⟨?_, ?_, List.mem_cons_self _ _,
    List.mem_cons_of_mem _ (List.mem_cons_of_mem _ (List.mem_cons_self _ _))⟩
  · unfold best_per_user
    rw [show weekRows c2subs "week-1" = c2subs from rfl]
    rw [show c2subs = [⟨"week-1", 7, 0, 1, 1⟩, ⟨"week-1", 7, 0, 1 + 1 / 10 ^ 15, 0⟩,
      ⟨"week-1", 7, 0, 1, 2⟩] from rfl]
    rw [List.foldl_cons, s1, List.foldl_cons, s2, List.foldl_cons, s3, List.foldl_nil]
    simp [List.insertionSort, List.orderedInsert]
  · rw [hA, hC, sub_self, abs_zero]
    norm_num

/-! ## The leaderboard (towards C3) -/

lemma target_c3db : get_target c3db = some (0, 0) := by
  have h : get_target c3db =
      some (groupVal ⟨"0".data, "0".data, "0".data, none, 'N'⟩,
        groupVal ⟨"0".data, "0".data, "0".data, none, 'E'⟩) := rfl
  rw [h, groupVal_0N, groupVal_0E]

/-- C3 (amended): with a target set, the leaderboard is the per-user
best list of `best_per_user` — which is sorted ascending by the pair
(distance, timestamp) — truncated to `topN` entries, where a `topN`
below 1 is replaced by the default 10 and any value above 100 is capped
at 100. -/
theorem C3_leaderboard (db : DB) (topn : Int) (t : ℚ × ℚ)
    (ht : get_target db = some t) :
    leaderboard db topn =
      some ((best_per_user db.subs (current_week_id db) t).take
        (min (if topn < 1 then 10 else topn) 100).toNat) ∧
    List.Sorted entryLe (best_per_user db.subs (current_week_id db) t) := by
  constructor
  · simp only [leaderboard, ht]
  · exact List.sorted_insertionSort entryLe _

/-- Witness for the amended C3 at a concrete database. -/
theorem C3_leaderboard_witness :
    leaderboard c3db 5 =
      some ((best_per_user c3db.subs (current_week_id c3db) (0, 0)).take
        (min (if (5 : Int) < 1 then (10 : Int) else 5) 100).toNat) ∧
    List.Sorted entryLe (best_per_user c3db.subs (current_week_id c3db) (0, 0)) :=
  C3_leaderboard c3db 5 (0, 0) target_c3db

/-- C3 counterexample: with two ranked users, `topN = 0` yields a
two-entry leaderboard — the code replaces a `topN` below 1 by 10 —
whereas clamping 0 into the range [1,100] would allow at most
`max 1 (min 0 100) = 1` entry. -/
theorem C3_counterexample :
    (leaderboard c3db 0).map List.length = some 2 ∧
    ¬ ((2 : Int) ≤ max 1 (min 0 100)) := by
  refine ⟨?_, by norm_num⟩
  have hd1 := submissionDist_zero "week-1" 1 1
  have hd2 := submissionDist_zero "week-1" 2 2
  have s1 : bestStep (0, 0) [] (⟨"week-1", 1, 0, 0, 1⟩ : Submission) =
      [(1, (0 : ℝ), 1)] := by
    rw [bestStep_start]
    dsimp only
    rw [hd1]
  have s2 : bestStep (0, 0) [(1, (0 : ℝ), 1)] (⟨"week-1", 2, 0, 0, 2⟩ : Submission) =
      [(1, (0 : ℝ), 1), (2, (0 : ℝ), 2)] := by
    unfold bestStep
    rw [show lookupEntry [(1, (0 : ℝ), 1)] (⟨"week-1", 2, 0, 0, 2⟩ : Submission).user =
      none from by simp [lookupEntry]]
    dsimp only
    rw [hd2]
    simp [setEntry]
  have hbest : best_per_user c3db.subs (current_week_id c3db) (0, 0) =
      [(1, (0 : ℝ), 1), (2, (0 : ℝ), 2)] := by
    unfold best_per_user
    rw [show weekRows c3db.subs (current_week_id c3db) =
      [⟨"week-1", 1, 0, 0, 1⟩, ⟨"week-1", 2, 0, 0, 2⟩] from rfl]
    rw [List.foldl_cons, s1, List.foldl_cons, s2, List.foldl_nil]
    rw [List.insertionSort, List.insertionSort, List.insertionSort,
      List.orderedInsert, List.orderedInsert]
    rw [if_pos (show entryLe (1, (0 : ℝ), 1) (2, (0 : ℝ), 2) from
      Or.inr ⟨rfl, by norm_num⟩)]
  have hlead : leaderboard c3db 0 =
      some (((best_per_user c3db.subs (current_week_id c3db) (0, 0))).take 10) := by
    simp only [leaderboard, target_c3db]
    norm_num
    rfl
  rw [hlead, hbest]
  simp
